import Mathlib

/-!
Verification of the asynchronous inference-request scheduler in
`demos/common/processing/src/async_pipeline.cpp` (class `PipelineBase`).

The shallow embedding below translates the scheduler's shared mutable state
and its operations (`submitImage`, `submitRequest`, the completion callback
installed by `submitRequest`, `waitForData`, `getInferenceResult`,
`getResult`) into pure Lean functions over an explicit `PipelineState`.
`int64_t` arithmetic is modelled on `Int` with explicit two's-complement
wrapping where overflow matters.  The completion callback runs under the
scheduler's lock, so each callback invocation is modelled as one atomic
state transition; interleavings of callbacks and consumer calls are
sequences of such transitions.
-/

/-- Opaque payload of one named output blob (`TBlob<float>` copy in the source). -/
abbrev Blob := Nat

/-- Opaque captured exception (`std::exception_ptr` content in the source). -/
abbrev Err := Nat

/-- One completed inference result, as produced by the completion callback
(`InferenceResult` in the source): frame id, start timestamp, caller
metadata, and the map of named output blobs. -/
structure InferenceResult where
  frameId : Int := 0
  startTime : Nat := 0
  metaData : Option Nat := none
  outputsData : List (String × Blob) := []
deriving DecidableEq, Repr

/-- Modelled from the spec: `InferenceResult::IsEmpty` is declared in the
header `results.h`, which is not part of the excerpted source.  The spec
describes `consume()` as returning `Result | Empty`, Empty being the
default-constructed result holding no output data. -/
def InferenceResult.IsEmpty (r : InferenceResult) : Bool :=
  r.outputsData.isEmpty

/-- One pending asynchronous submission: the data captured by the completion
callback closure in `submitRequest` (frame id, start timestamp, metadata). -/
structure Job where
  frameId : Int
  startTime : Nat
  metaData : Option Nat
deriving DecidableEq, Repr

/-- Lookup in the ordered map `completedInferenceResults`
(`std::map::find`, returning the mapped value when the key is present). -/
def mapFind : List (Int × InferenceResult) → Int → Option InferenceResult
  | [], _ => none
  | (k, v) :: m, key => if key = k then some v else mapFind m key

/-- Insertion via `std::map::emplace`: inserts only when the key is absent;
when the key is already present the map is left unchanged (the returned
success flag is ignored by the source). -/
def mapEmplace (m : List (Int × InferenceResult)) (k : Int) (v : InferenceResult) :
    List (Int × InferenceResult) :=
  if (mapFind m k).isSome then m else (k, v) :: m

/-- Removal via `std::map::erase` of the iterator found for a key. -/
def mapErase (m : List (Int × InferenceResult)) (k : Int) :
    List (Int × InferenceResult) :=
  m.filter (fun p => p.1 ≠ k)

/-- The scheduler's shared state (fields of `PipelineBase`): the two frame-id
counters, the completed-results store, the sticky callback exception, the
request pool's idle/busy bookkeeping, and the recorded performance-metric
updates (`perfMetrics.update` calls, keyed by start timestamp). -/
structure PipelineState where
  inputFrameId : Int
  outputFrameId : Int
  completedInferenceResults : List (Int × InferenceResult)
  callbackException : Option Err
  idleRequests : Nat
  busyRequests : Nat
  perfUpdates : List Nat
deriving DecidableEq, Repr

/-- Modelled from the spec: `RequestsPool` lives in a header that is not part
of the excerpted source; the spec describes WorkerSlotPool as a fixed-size
collection of reusable slots, tracking idle vs busy, handing out an idle slot
on demand without blocking.  It is embedded as the pair of counters
`idleRequests`/`busyRequests` in `PipelineState`; `isIdleRequestAvailable`
reports whether some slot is idle. -/
def isIdleRequestAvailable (s : PipelineState) : Bool :=
  s.idleRequests ≠ 0

/-- Modelled from the spec: the initial scheduler state (member initializers
in the header, not part of the excerpted source).  The spec states that both
sequence counters start at 0, the store is empty, no error is recorded, and
all `poolSize` slots are idle. -/
def initialState (poolSize : Nat) : PipelineState :=
  { inputFrameId := 0
    outputFrameId := 0
    completedInferenceResults := []
    callbackException := none
    idleRequests := poolSize
    busyRequests := 0
    perfUpdates := [] }

/-- Two's-complement wrap of mathematical-integer increment into `int64_t`
range: the source increments an `int64_t`, so a value passing `2^63 - 1`
wraps to `-2^63`. -/
def wrap64 (i : Int) : Int :=
  (i + 9223372036854775808) % 18446744073709551616 - 9223372036854775808

/-- The frame-id advance step used by both counters in the source
(`id++; if (id < 0) id = 0;`): increment in `int64_t`, then replace a
negative value by 0. -/
def advanceFrameId (i : Int) : Int :=
  if wrap64 (i + 1) < 0 then 0 else wrap64 (i + 1)

/-- `PipelineBase::submitRequest` without the backend call: records the frame
id from `inputFrameId`, builds the completion-callback closure data (the
returned `Job`), and advances `inputFrameId` with the wrap-to-zero rule.
Returns (returned frame id, installed closure data, new state). -/
def submitRequest (s : PipelineState) (startTime : Nat) (metaData : Option Nat) :
    Int × Job × PipelineState :=
  let frameID := s.inputFrameId
  (frameID,
   { frameId := frameID, startTime := startTime, metaData := metaData },
   { s with inputFrameId := advanceFrameId s.inputFrameId })

/-- `PipelineBase::submitImage`: probe the pool for an idle request; when none
is available return -1 immediately with no state change and no installed
callback; otherwise take the slot (it becomes busy) and delegate to
`submitRequest`. -/
def submitImage (s : PipelineState) (startTime : Nat) (metaData : Option Nat) :
    Int × Option Job × PipelineState :=
  if s.idleRequests = 0 then
    (-1, none, s)
  else
    let s1 := { s with idleRequests := s.idleRequests - 1,
                       busyRequests := s.busyRequests + 1 }
    let r := submitRequest s1 startTime metaData
    (r.1, some r.2.1, r.2.2)

/-- The completion callback installed by `submitRequest`, as one atomic
transition (it runs under the scheduler's lock).  `extraction` is the outcome
of the output-extraction loop (`GetBlob`/blob copy for every output name),
which is the throwing region of the `try` block.  On success the result is
emplaced into the store, the request is returned to the pool as idle, and the
`onProcessingCompleted` hook runs; on failure control jumps to the `catch`
block, which records the exception only when none is recorded yet — the
emplace and the slot release are skipped. -/
def completionCallback (s : PipelineState) (job : Job)
    (extraction : Except Err (List (String × Blob))) : PipelineState :=
  match extraction with
  | Except.ok outputs =>
      let result : InferenceResult :=
        { frameId := job.frameId
          startTime := job.startTime
          metaData := job.metaData
          outputsData := outputs }
      { s with
          completedInferenceResults :=
            mapEmplace s.completedInferenceResults job.frameId result
          idleRequests := s.idleRequests + 1
          busyRequests := s.busyRequests - 1 }
  | Except.error e =>
      { s with
          callbackException :=
            if s.callbackException.isNone then some e else s.callbackException }

/-- The condition-variable predicate of `PipelineBase::waitForData`: an
exception is recorded, or an idle request is available, or the store contains
the entry for `outputFrameId`. -/
def waitDataReady (s : PipelineState) : Bool :=
  s.callbackException.isSome || isIdleRequestAvailable s ||
    (mapFind s.completedInferenceResults s.outputFrameId).isSome

/-- `PipelineBase::waitForData`: blocks (modelled as `none`) until
`waitDataReady` holds; once it holds, rethrows the recorded exception when
one is set, otherwise returns normally. -/
def waitForData (s : PipelineState) : Option (Except Err Unit) :=
  if waitDataReady s then
    match s.callbackException with
    | some e => some (Except.error e)
    | none => some (Except.ok ())
  else none

/-- `PipelineBase::getInferenceResult`: look up `outputFrameId` in the store;
when absent return the default-constructed (empty) result with no state
change; when present move the result out, erase the entry, and — because the
moved-out result is non-empty — set `outputFrameId` to the result's frame id
plus one with the wrap-to-zero rule and record the performance update. -/
def getInferenceResult (s : PipelineState) : InferenceResult × PipelineState :=
  match mapFind s.completedInferenceResults s.outputFrameId with
  | none => ({}, s)
  | some r =>
      let s1 := { s with
        completedInferenceResults :=
          mapErase s.completedInferenceResults s.outputFrameId }
      if r.IsEmpty then (r, s1)
      else
        (r, { s1 with
                outputFrameId := advanceFrameId r.frameId
                perfUpdates := r.startTime :: s1.perfUpdates })

/-- `PipelineBase::getResult`: delegate to `getInferenceResult`; an empty
inference result becomes `none` (a null `unique_ptr`), a non-empty one is
handed to postprocessing and returned. -/
def getResult (s : PipelineState) : Option InferenceResult × PipelineState :=
  let r := getInferenceResult s
  if r.1.IsEmpty then (none, r.2) else (some r.1, r.2)

/-- The result a completion callback with payload `out` builds for a job that
was submitted with start timestamp 0 and no metadata, keyed by frame id. -/
def mkRes (out : List (String × Blob)) (k : Int) : InferenceResult :=
  { frameId := k, startTime := 0, metaData := none, outputsData := out }

/-- A run of consecutive `submitImage` calls (each with start timestamp 0 and
no metadata): returns the final state and the list of installed
completion-callback closures, in submission order.  A rejected submission
stops the run. -/
def submitSeq : PipelineState → Nat → PipelineState × List Job
  | s, 0 => (s, [])
  | s, n + 1 =>
    let r := submitImage s 0 none
    match r.2.1 with
    | some job =>
        let rest := submitSeq r.2.2 n
        (rest.1, job :: rest.2)
    | none => (r.2.2, [])

/-- Firing the completion callbacks of the given jobs, in the given order,
each with a successful extraction producing payload `out`.  The order of
`js` models the arbitrary completion order of the backend. -/
def fireCallbacks (out : List (String × Blob)) : PipelineState → List Job → PipelineState
  | s, [] => s
  | s, j :: js => fireCallbacks out (completionCallback s j (Except.ok out)) js

/-- A run of consecutive `getInferenceResult` calls: returns the list of
returned results, in call order, and the final state. -/
def consumeSeq : PipelineState → Nat → List InferenceResult × PipelineState
  | s, 0 => ([], s)
  | s, n + 1 =>
    let r := getInferenceResult s
    let rest := consumeSeq r.2 n
    (r.1 :: rest.1, rest.2)

/-- The completed-results store holds exactly the canonical results for the
frame-id interval `[lo, hi)`: every entry is canonical with key in the
interval, and every key in the interval is found. -/
def storeCanonical (out : List (String × Blob)) (lo hi : Int)
    (S : List (Int × InferenceResult)) : Prop :=
  (∀ p ∈ S, p.2 = mkRes out p.1 ∧ lo ≤ p.1 ∧ p.1 < hi) ∧
  (∀ k : Int, lo ≤ k → k < hi → mapFind S k = some (mkRes out k))

/-- A pending result with one output blob, completed for frame id 0. -/
def exResultC2 : InferenceResult :=
  { frameId := 0, startTime := 5, metaData := none, outputsData := [("output", 42)] }

/-- A state in which a callback failure has been recorded (`some 7`) while a
later completion placed the valid result for the next consume id in the
store. -/
def exStateC2 : PipelineState :=
  { inputFrameId := 1, outputFrameId := 0,
    completedInferenceResults := [(0, exResultC2)],
    callbackException := some 7, idleRequests := 1, busyRequests := 0,
    perfUpdates := [] }

/-- The result already stored for frame id 0 when a duplicate callback fires. -/
def exResultC7 : InferenceResult :=
  { frameId := 0, startTime := 1, metaData := none, outputsData := [("output", 11)] }

/-- A state whose store already holds an unconsumed entry for frame id 0. -/
def exStateC7 : PipelineState :=
  { inputFrameId := 1, outputFrameId := 0,
    completedInferenceResults := [(0, exResultC7)],
    callbackException := none, idleRequests := 0, busyRequests := 1,
    perfUpdates := [] }

/-- A second completion-callback closure for the already-present frame id 0. -/
def exJobC7 : Job :=
  { frameId := 0, startTime := 2, metaData := none }

/-- A state with one in-flight submission (one busy slot, none idle). -/
def exStateC8 : PipelineState :=
  { inputFrameId := 1, outputFrameId := 0,
    completedInferenceResults := [],
    callbackException := none, idleRequests := 0, busyRequests := 1,
    perfUpdates := [] }

/-- The completion-callback closure of the single in-flight submission. -/
def exJobC8 : Job :=
  { frameId := 0, startTime := 0, metaData := none }

/-- The increment-and-clamp step on an in-range non-negative `int64_t` value
adds one, except at the maximum value, where it wraps to zero. -/
theorem advanceFrameId_eq (i : Int) (h0 : 0 ≤ i) (h1 : i < 9223372036854775808) :
    advanceFrameId i = if i = 9223372036854775807 then 0 else i + 1 := by
  unfold advanceFrameId wrap64
  split <;> omega

/-- The increment-and-clamp step never produces a negative value from an
in-range non-negative one. -/
theorem advanceFrameId_nonneg (i : Int) (h0 : 0 ≤ i) (h1 : i < 9223372036854775808) :
    0 ≤ advanceFrameId i := by
  unfold advanceFrameId wrap64
  omega

/-- Away from the overflow boundary the advance step is plain increment. -/
theorem advanceFrameId_small (i : Int) (h0 : 0 ≤ i) (h1 : i + 1 < 9223372036854775808) :
    advanceFrameId i = i + 1 := by
  unfold advanceFrameId wrap64
  omega

/-- C3: `waitForData` returns exactly when the recorded callback exception is
set, an idle request is available, or the store contains the entry for
`outputFrameId`; and whenever the exception is set it returns by re-raising
that exception rather than normally. -/
theorem waitForData_returns_iff (s : PipelineState) :
    ((waitForData s).isSome ↔
      (s.callbackException.isSome = true ∨ isIdleRequestAvailable s = true ∨
        (mapFind s.completedInferenceResults s.outputFrameId).isSome = true)) ∧
    (∀ e : Err, s.callbackException = some e → waitForData s = some (Except.error e)) := by
  constructor
  · unfold waitForData waitDataReady
    cases h : s.callbackException <;> simp [h]
  · intro e he
    unfold waitForData waitDataReady
    simp [he]

/-- Witness for C3 at a concrete state with a recorded exception. -/
theorem waitForData_returns_iff_witness :
    (waitForData exStateC2).isSome ∧ waitForData exStateC2 = some (Except.error 7) := by
  exact ⟨by decide, (waitForData_returns_iff exStateC2).2 7 (by decide)⟩

/-- C4: when no idle request is available, `submitImage` returns -1
immediately, installs no callback, and leaves the scheduler state (including
`inputFrameId`) completely unchanged. -/
theorem submitImage_rejected_noop (s : PipelineState) (t : Nat) (md : Option Nat)
    (h : s.idleRequests = 0) :
    submitImage s t md = (-1, none, s) := by
  unfold submitImage
  simp [h]

/-- Witness for C4 at a concrete state with no idle request. -/
theorem submitImage_rejected_noop_witness :
    submitImage exStateC8 0 none = (-1, none, exStateC8) :=
  submitImage_rejected_noop exStateC8 0 none (by decide)

/-- C5: a failing completion handler stores its exception only when none is
recorded yet; when an exception is already recorded, the later failure is
dropped and the state is left entirely unchanged. -/
theorem callbackException_first_failure (s : PipelineState) (job : Job) (e : Err) :
    (s.callbackException = none →
      (completionCallback s job (Except.error e)).callbackException = some e) ∧
    (∀ e0 : Err, s.callbackException = some e0 →
      completionCallback s job (Except.error e) = s) := by
  constructor
  · intro h
    simp [completionCallback, h]
  · intro e0 h
    cases s
    simp_all [completionCallback]

/-- Witness for C5: a second failure against a recorded exception is a no-op. -/
theorem callbackException_first_failure_witness :
    completionCallback exStateC2 exJobC8 (Except.error 99) = exStateC2 :=
  (callbackException_first_failure exStateC2 exJobC8 99).2 7 (by decide)

/-- C10: when the store has no entry for `outputFrameId`, `getInferenceResult`
returns the empty result and the state unchanged (no entry removed,
`outputFrameId` not advanced, no performance update), and `getResult` returns
null; the caller can retry the identical consume later. -/
theorem consume_absent_noop (s : PipelineState)
    (h : mapFind s.completedInferenceResults s.outputFrameId = none) :
    getInferenceResult s = ({}, s) ∧
    (getInferenceResult s).1.IsEmpty = true ∧
    getResult s = (none, s) := by
  unfold getInferenceResult getResult
  rw [h]
  simp [InferenceResult.IsEmpty, getInferenceResult, h]

/-- Witness for C10 at a concrete state with an empty store. -/
theorem consume_absent_noop_witness :
    getInferenceResult exStateC8 = ({}, exStateC8) ∧ getResult exStateC8 = (none, exStateC8) := by
  have h := consume_absent_noop exStateC8 (by decide)
  exact ⟨h.1, h.2.2⟩

/-- C6: after a submission `inputFrameId` is the previous value plus one,
except that the value overflowing `int64_t` (which would be negative) is
replaced by 0, and it stays non-negative; a successful consume advances
`outputFrameId` from the returned frame id by exactly the same wrap-to-zero
rule, so neither counter is ever negative. -/
theorem frameId_wrap_rule (s : PipelineState) (t : Nat) (md : Option Nat)
    (h0 : 0 ≤ s.inputFrameId) (h1 : s.inputFrameId < 2 ^ 63) :
    ((submitRequest s t md).2.2.inputFrameId = advanceFrameId s.inputFrameId ∧
     (submitRequest s t md).2.2.inputFrameId =
       (if s.inputFrameId = 2 ^ 63 - 1 then 0 else s.inputFrameId + 1) ∧
     0 ≤ (submitRequest s t md).2.2.inputFrameId) ∧
    (∀ (r : InferenceResult) (s2 : PipelineState),
      getInferenceResult s = (r, s2) → r.IsEmpty = false →
      s2.outputFrameId = advanceFrameId r.frameId ∧
      (0 ≤ r.frameId → r.frameId < 2 ^ 63 →
        s2.outputFrameId = (if r.frameId = 2 ^ 63 - 1 then 0 else r.frameId + 1) ∧
        0 ≤ s2.outputFrameId)) := by
  have hpow : (2 : Int) ^ 63 = 9223372036854775808 := by norm_num
  constructor
  · refine ⟨rfl, ?_, ?_⟩
    · show advanceFrameId s.inputFrameId = _
      rw [advanceFrameId_eq s.inputFrameId h0 (by omega), hpow]
      norm_num
    · show 0 ≤ advanceFrameId s.inputFrameId
      exact advanceFrameId_nonneg s.inputFrameId h0 (by omega)
  · intro r s2 hr hne
    unfold getInferenceResult at hr
    cases hfind : mapFind s.completedInferenceResults s.outputFrameId with
    | none =>
        rw [hfind] at hr
        simp at hr
        rw [← hr.1] at hne
        simp [InferenceResult.IsEmpty] at hne
    | some r0 =>
        rw [hfind] at hr
        by_cases he : r0.IsEmpty
        · simp [he] at hr
          rw [← hr.1] at hne
          rw [he] at hne
          exact absurd hne (by simp)
        · simp [he] at hr
          obtain ⟨hr1, hr2⟩ := hr
          subst hr1
          subst hr2
          refine ⟨rfl, ?_⟩
          intro hb0 hb1
          show advanceFrameId _ = _ ∧ 0 ≤ advanceFrameId _
          rw [advanceFrameId_eq _ hb0 (by omega), hpow]
          norm_num
          split <;> omega

/-- Witness for C6 at a concrete state, exercising both counters. -/
theorem frameId_wrap_rule_witness :
    (submitRequest exStateC2 0 none).2.2.inputFrameId = 2 ∧
    (getInferenceResult exStateC2).2.outputFrameId = 1 := by
  have h := frameId_wrap_rule exStateC2 0 none (by decide) (by decide)
  refine ⟨?_, ?_⟩
  · rw [h.1.2.1]
    norm_num
    decide
  · have h2 := h.2 (getInferenceResult exStateC2).1 (getInferenceResult exStateC2).2
      rfl (by decide)
    rw [h2.1]
    decide

/-- C9: `submitImage` returns the sentinel -1 exactly when no idle request is
available; every successfully assigned frame id equals the current
`inputFrameId` and is non-negative (the counter starts at 0 and its update
preserves non-negativity), so -1 never collides with a valid frame id. -/
theorem rejection_sentinel (s : PipelineState) (t : Nat) (md : Option Nat) (n : Nat)
    (h0 : 0 ≤ s.inputFrameId) :
    ((submitImage s t md).1 = -1 ↔ s.idleRequests = 0) ∧
    (s.idleRequests ≠ 0 →
      (submitImage s t md).1 = s.inputFrameId ∧ 0 ≤ (submitImage s t md).1) ∧
    (s.inputFrameId < 2 ^ 63 → 0 ≤ (submitImage s t md).2.2.inputFrameId) ∧
    (initialState n).inputFrameId = 0 := by
  have hpow : (2 : Int) ^ 63 = 9223372036854775808 := by norm_num
  by_cases h : s.idleRequests = 0
  · refine ⟨by simp [submitImage, h], by simp [h], ?_, rfl⟩
    intro hb
    simp [submitImage, h]
    exact h0
  · refine ⟨?_, ?_, ?_, rfl⟩
    · simp [submitImage, h, submitRequest]
      omega
    · intro _
      constructor
      · simp [submitImage, h, submitRequest]
      · simp [submitImage, h, submitRequest]
        exact h0
    · intro hb
      simp [submitImage, h, submitRequest]
      exact advanceFrameId_nonneg _ h0 (by omega)

/-- Witness for C9: an accepted submission returns a non-negative id, a
rejected one returns -1. -/
theorem rejection_sentinel_witness :
    (submitImage (initialState 2) 0 none).1 ≠ -1 ∧
    (submitImage (initialState 0) 0 none).1 = -1 := by
  have h1 := rejection_sentinel (initialState 2) 0 none 2 (by decide)
  have h2 := rejection_sentinel (initialState 0) 0 none 0 (by decide)
  constructor
  · have := (h1.2.1 (by decide)).2
    omega
  · exact h2.1.mpr rfl

/-- Counterexample to C2: in a state with a recorded callback exception and a
valid completed result for the next consume id, `getInferenceResult` and
`getResult` return the valid result normally instead of surfacing the
recorded error (only `waitForData` surfaces it). -/
theorem consume_ignores_deferred_error_cex :
    exStateC2.callbackException = some 7 ∧
    (getInferenceResult exStateC2).1 = exResultC2 ∧
    (getInferenceResult exStateC2).1.IsEmpty = false ∧
    (getResult exStateC2).1 = some exResultC2 ∧
    waitForData exStateC2 = some (Except.error 7) := by
  refine ⟨rfl, by decide, by decide, by decide, by rfl⟩

/-- C2 (amended): once a completion handler has recorded a failure, every
subsequent `waitForData` call re-raises that same captured error, and no
later operation (completion callback, consume, submission) clears it;
`getResult`/`getInferenceResult` do not consult the error and return results
from the store normally. -/
theorem deferred_error_sticky (s : PipelineState) (e : Err) (job : Job)
    (x : Except Err (List (String × Blob))) (t : Nat) (md : Option Nat)
    (h : s.callbackException = some e) :
    waitForData s = some (Except.error e) ∧
    (completionCallback s job x).callbackException = some e ∧
    (getInferenceResult s).2.callbackException = some e ∧
    (getResult s).2.callbackException = some e ∧
    (submitImage s t md).2.2.callbackException = some e := by
  have hw : waitForData s = some (Except.error e) := by
    unfold waitForData waitDataReady
    simp [h]
  have hg : (getInferenceResult s).2.callbackException = some e := by
    unfold getInferenceResult
    cases hf : mapFind s.completedInferenceResults s.outputFrameId with
    | none => simpa using h
    | some r =>
        by_cases he : r.IsEmpty <;> simp [he] <;> exact h
  refine ⟨hw, ?_, hg, ?_, ?_⟩
  · cases x with
    | ok outputs => simpa using h
    | error e2 => simp [completionCallback, h]
  · unfold getResult
    by_cases he : (getInferenceResult s).1.IsEmpty <;> simp [he] <;> exact hg
  · unfold submitImage
    by_cases hi : s.idleRequests = 0 <;> simp [hi, submitRequest] <;> exact h

/-- Witness for the amended C2 at a concrete state with a recorded error. -/
theorem deferred_error_sticky_witness :
    waitForData exStateC2 = some (Except.error 7) ∧
    (completionCallback exStateC2 exJobC7 (Except.error 9)).callbackException = some 7 ∧
    (getInferenceResult exStateC2).2.callbackException = some 7 := by
  have h := deferred_error_sticky exStateC2 7 exJobC7 (Except.error 9) 0 none rfl
  exact ⟨h.1, h.2.1, h.2.2.1⟩

/-- Counterexample to C7: when a completion handler fires for a frame id that
already has an unconsumed entry, the `emplace` is a silent no-op — the store
keeps the old entry, no exception is recorded, and the handler proceeds
normally (the slot is released); nothing detects or reports the collision. -/
theorem duplicate_frameId_cex :
    mapFind exStateC7.completedInferenceResults 0 = some exResultC7 ∧
    (completionCallback exStateC7 exJobC7
        (Except.ok [("output", 22)])).completedInferenceResults =
      [(0, exResultC7)] ∧
    (completionCallback exStateC7 exJobC7
        (Except.ok [("output", 22)])).callbackException = none ∧
    (completionCallback exStateC7 exJobC7
        (Except.ok [("output", 22)])).idleRequests = 1 := by
  refine ⟨by decide, by decide, by decide, by decide⟩

/-- C7 (amended): a completion handler whose frame id already has an
unconsumed entry in the store leaves the store unchanged (the new result is
discarded) and records no error — the collision is silently ignored, not
treated as a protocol violation. -/
theorem duplicate_frameId_noop (s : PipelineState) (job : Job)
    (outputs : List (String × Blob))
    (h : (mapFind s.completedInferenceResults job.frameId).isSome) :
    (completionCallback s job
        (Except.ok outputs)).completedInferenceResults =
      s.completedInferenceResults ∧
    (completionCallback s job (Except.ok outputs)).callbackException =
      s.callbackException := by
  unfold completionCallback mapEmplace
  simp [h]

/-- Witness for the amended C7 at a concrete state with a duplicate entry. -/
theorem duplicate_frameId_noop_witness :
    (completionCallback exStateC7 exJobC7
        (Except.ok [("output", 22)])).completedInferenceResults =
      exStateC7.completedInferenceResults :=
  (duplicate_frameId_noop exStateC7 exJobC7 [("output", 22)] (by decide)).1

/-- Counterexample to C8: a completion handler whose output extraction fails
jumps to the catch block before `setRequestIdle` runs, so its slot is never
returned to the pool — afterwards no idle request is available. -/
theorem failing_callback_keeps_slot_busy_cex :
    exStateC8.busyRequests = 1 ∧
    (completionCallback exStateC8 exJobC8 (Except.error 3)).idleRequests = 0 ∧
    (completionCallback exStateC8 exJobC8 (Except.error 3)).busyRequests = 1 ∧
    isIdleRequestAvailable
      (completionCallback exStateC8 exJobC8 (Except.error 3)) = false := by
  refine ⟨rfl, by decide, by decide, by decide⟩

/-- C8 (amended): a completion handler whose extraction succeeds returns its
slot to the pool as idle; a handler whose extraction fails leaves the pool
bookkeeping unchanged, so its slot stays busy permanently. -/
theorem callback_slot_release (s : PipelineState) (job : Job)
    (outputs : List (String × Blob)) (e : Err) :
    ((completionCallback s job (Except.ok outputs)).idleRequests =
        s.idleRequests + 1 ∧
     (completionCallback s job (Except.ok outputs)).busyRequests =
        s.busyRequests - 1) ∧
    ((completionCallback s job (Except.error e)).idleRequests = s.idleRequests ∧
     (completionCallback s job (Except.error e)).busyRequests =
        s.busyRequests) := by
  exact ⟨⟨rfl, rfl⟩, ⟨rfl, rfl⟩⟩

/-- A run of n accepted submissions assigns consecutive frame ids starting at
the current `inputFrameId`, advances the counter by n, and moves n slots from
idle to busy, touching nothing else. -/
theorem submitSeq_spec : ∀ (n : Nat) (s : PipelineState),
    n ≤ s.idleRequests → 0 ≤ s.inputFrameId →
    s.inputFrameId + n < 9223372036854775808 →
    submitSeq s n =
      ({ s with inputFrameId := s.inputFrameId + n,
                idleRequests := s.idleRequests - n,
                busyRequests := s.busyRequests + n },
       (List.range n).map
         (fun k => { frameId := s.inputFrameId + k, startTime := 0, metaData := none })) := by
  intro n
  induction n with
  | zero =>
      intro s _ _ _
      simp [submitSeq]
  | succ n ih =>
      intro s hn h0 h1
      have hne : ¬ s.idleRequests = 0 := by omega
      have hadv : advanceFrameId s.inputFrameId = s.inputFrameId + 1 :=
        advanceFrameId_small s.inputFrameId h0 (by omega)
      unfold submitSeq submitImage submitRequest
      rw [if_neg hne]
      dsimp only
      rw [ih _ (by dsimp only; omega) (by dsimp only; rw [hadv]; omega)
            (by dsimp only; rw [hadv]; push_cast at h1; omega)]
      dsimp only
      rw [hadv]
      rw [List.range_succ_eq_map]
      refine congrArg₂ Prod.mk ?_ ?_
      · simp only [PipelineState.mk.injEq]
        refine ⟨by push_cast; ring, trivial, trivial, trivial, by omega, by omega, trivial⟩
      · simp only [List.map_cons, List.map_map]
        refine congrArg₂ List.cons (by simp) ?_
        apply List.map_congr_left
        intro k _
        simp only [Function.comp, Job.mk.injEq]
        refine ⟨by push_cast; ring, trivial, trivial⟩

/-- Lookup in the empty store. -/
theorem mapFind_nil (k : Int) : mapFind [] k = none := rfl

/-- Lookup steps through one store entry. -/
theorem mapFind_cons (p : Int × InferenceResult) (m : List (Int × InferenceResult)) (k : Int) :
    mapFind (p :: m) k = if k = p.1 then some p.2 else mapFind m k := by
  cases p
  rfl

/-- Erasing a key removes exactly that key from lookup. -/
theorem mapFind_mapErase (m : List (Int × InferenceResult)) (k0 k : Int) :
    mapFind (mapErase m k0) k = if k = k0 then none else mapFind m k := by
  induction m with
  | nil => simp [mapErase, mapFind]
  | cons p m ih =>
      unfold mapErase at ih ⊢
      rw [List.filter_cons]
      by_cases hp : p.1 = k0
      · rw [if_neg (by simp [hp])]
        rw [ih]
        by_cases hk : k = k0
        · simp [hk]
        · rw [if_neg hk, if_neg hk, mapFind_cons, if_neg (by omega)]
      · rw [if_pos (by simp [hp])]
        by_cases hk : k = p.1
        · rw [mapFind_cons, if_pos hk, if_neg (by omega), mapFind_cons, if_pos hk]
        · rw [mapFind_cons, if_neg hk, ih]
          by_cases hk0 : k = k0
          · simp [hk0]
          · rw [if_neg hk0, if_neg hk0, mapFind_cons, if_neg hk]

/-- Firing successful completion callbacks never touches the frame-id
counters, the recorded exception, or the performance state. -/
theorem fireCallbacks_fields (out : List (String × Blob)) :
    ∀ (js : List Job) (s : PipelineState),
    (fireCallbacks out s js).inputFrameId = s.inputFrameId ∧
    (fireCallbacks out s js).outputFrameId = s.outputFrameId ∧
    (fireCallbacks out s js).callbackException = s.callbackException ∧
    (fireCallbacks out s js).perfUpdates = s.perfUpdates := by
  intro js
  induction js with
  | nil => intro s; exact ⟨rfl, rfl, rfl, rfl⟩
  | cons j js ih =>
      intro s
      unfold fireCallbacks
      obtain ⟨h1, h2, h3, h4⟩ := ih (completionCallback s j (Except.ok out))
      exact ⟨h1.trans rfl, h2.trans rfl, h3.trans rfl, h4.trans rfl⟩

/-- Firing the completion callbacks of jobs with pairwise distinct, fresh
frame ids makes each job's canonical result retrievable by its frame id and
adds no other entries. -/
theorem fireCallbacks_store (out : List (String × Blob)) :
    ∀ (js : List Job) (s : PipelineState),
    (∀ j ∈ js, j.startTime = 0 ∧ j.metaData = none) →
    (∀ j ∈ js, mapFind s.completedInferenceResults j.frameId = none) →
    (js.map Job.frameId).Nodup →
    (∀ k : Int, mapFind (fireCallbacks out s js).completedInferenceResults k =
       if k ∈ js.map Job.frameId then some (mkRes out k)
       else mapFind s.completedInferenceResults k) ∧
    (∀ p ∈ (fireCallbacks out s js).completedInferenceResults,
       p ∈ s.completedInferenceResults ∨
       (p.1 ∈ js.map Job.frameId ∧ p.2 = mkRes out p.1)) := by
  intro js
  induction js with
  | nil =>
      intro s _ _ _
      constructor
      · intro k
        simp [fireCallbacks]
      · intro p hp
        exact Or.inl hp
  | cons j js ih =>
      intro s hjob hfresh hnodup
      have hj := hjob j (by simp)
      have hstore1 : (completionCallback s j (Except.ok out)).completedInferenceResults
          = (j.frameId, mkRes out j.frameId) :: s.completedInferenceResults := by
        simp [completionCallback, mapEmplace, hfresh j (by simp), mkRes, hj.1, hj.2]
      have hjhd : j.frameId ∉ js.map Job.frameId := by
        have := hnodup
        simp only [List.map_cons, List.nodup_cons] at this
        exact this.1
      obtain ⟨ihFind, ihMem⟩ := ih (completionCallback s j (Except.ok out))
        (fun j' hj' => hjob j' (List.mem_cons_of_mem _ hj'))
        (fun j' hj' => by
          rw [hstore1, mapFind_cons]
          rw [if_neg ?_]
          · exact hfresh j' (List.mem_cons_of_mem _ hj')
          · intro h
            apply hjhd
            have hm := List.mem_map_of_mem Job.frameId hj'
            simpa [h] using hm)
        (by
          simp only [List.map_cons, List.nodup_cons] at hnodup
          exact hnodup.2)
      constructor
      · intro k
        show mapFind (fireCallbacks out (completionCallback s j (Except.ok out)) js).completedInferenceResults k = _
        rw [ihFind k, hstore1]
        by_cases h1 : k ∈ js.map Job.frameId
        · rw [if_pos h1, if_pos (by simp [h1])]
        · rw [if_neg h1, mapFind_cons]
          by_cases h2 : k = j.frameId
          · subst h2
            rw [if_pos rfl, if_pos (by simp)]
          · rw [if_neg h2, if_neg (by simp [h1, h2])]
      · intro p hp
        have hp2 := ihMem p hp
        cases hp2 with
        | inl hmem =>
            rw [hstore1] at hmem
            cases List.mem_cons.mp hmem with
            | inl heq =>
                right
                subst heq
                exact ⟨by simp, rfl⟩
            | inr hmem2 => exact Or.inl hmem2
        | inr hmem =>
            right
            exact ⟨by simp [hmem.1], hmem.2⟩

/-- Draining a store that holds exactly the canonical results for the next
cnt frame ids returns them in strictly increasing frame-id order, leaves the
store empty, and advances `outputFrameId` accordingly. -/
theorem consumeSeq_spec (out : List (String × Blob)) (hout : out ≠ []) :
    ∀ (cnt i : Nat) (s : PipelineState),
    s.outputFrameId = (i : Int) →
    ((i : Int) + (cnt : Int)) < 9223372036854775808 →
    storeCanonical out (i : Int) ((i : Int) + (cnt : Int)) s.completedInferenceResults →
    (consumeSeq s cnt).1 = (List.range cnt).map (fun t : Nat => mkRes out ((i : Int) + (t : Int))) ∧
    (consumeSeq s cnt).2.completedInferenceResults = [] ∧
    (consumeSeq s cnt).2.outputFrameId = (i : Int) + (cnt : Int) := by
  intro cnt
  induction cnt with
  | zero =>
      intro i s hs hbound hcanon
      refine ⟨rfl, ?_, by simpa using hs⟩
      show s.completedInferenceResults = []
      rcases hlist : s.completedInferenceResults with _ | ⟨p, rest⟩
      · rfl
      · exfalso
        have hp := hcanon.1 p (by rw [hlist]; simp)
        push_cast at hp
        omega
  | succ cnt ih =>
      intro i s hs hbound hcanon
      have hfind : mapFind s.completedInferenceResults (i : Int) = some (mkRes out (i : Int)) :=
        hcanon.2 (i : Int) (le_refl _) (by push_cast; omega)
      have hne : (mkRes out (i : Int)).IsEmpty = false := by
        rcases out with _ | ⟨b, bs⟩
        · exact absurd rfl hout
        · rfl
      have hadv : advanceFrameId (i : Int) = (i : Int) + 1 := by
        apply advanceFrameId_small
        · omega
        · push_cast at hbound
          omega
      have hgi : getInferenceResult s =
          (mkRes out (i : Int),
           { s with completedInferenceResults := mapErase s.completedInferenceResults (i : Int),
                    outputFrameId := (i : Int) + 1,
                    perfUpdates := 0 :: s.perfUpdates }) := by
        unfold getInferenceResult
        rw [hs, hfind]
        simp only [hne, Bool.false_eq_true, if_false]
        rw [show (mkRes out (i : Int)).frameId = (i : Int) from rfl, hadv]
        rfl
      obtain ⟨ih1, ih2, ih3⟩ := ih (i + 1)
        ({ s with completedInferenceResults := mapErase s.completedInferenceResults (i : Int),
                  outputFrameId := (i : Int) + 1,
                  perfUpdates := 0 :: s.perfUpdates })
        (by push_cast; ring)
        (by push_cast; push_cast at hbound; omega)
        (by
          constructor
          · intro p hp
            have hmem : p ∈ s.completedInferenceResults := List.mem_of_mem_filter hp
            have hne2 : p.1 ≠ (i : Int) := by
              have := List.of_mem_filter hp
              simpa using this
            have hold := hcanon.1 p hmem
            push_cast
            push_cast at hold
            refine ⟨hold.1, by omega, by omega⟩
          · intro k hk1 hk2
            show mapFind (mapErase s.completedInferenceResults (i : Int)) k = _
            rw [mapFind_mapErase]
            rw [if_neg (by push_cast at hk1; omega)]
            apply hcanon.2
            · push_cast at hk1 ⊢
              omega
            · push_cast at hk2 ⊢
              omega)
      unfold consumeSeq
      rw [hgi]
      dsimp only
      refine ⟨?_, ih2, ?_⟩
      · rw [ih1]
        rw [List.range_succ_eq_map]
        simp only [List.map_cons, List.map_map]
        refine congrArg₂ List.cons (by simp) ?_
        apply List.map_congr_left
        intro t _
        simp only [Function.comp]
        show mkRes out _ = mkRes out _
        refine congrArg (mkRes out) ?_
        push_cast
        ring
      · rw [ih3]
        push_cast
        ring

/-- C1: for any number N of submissions from the initial state whose
completion callbacks fire in an arbitrary permutation of submission order,
N successive `getInferenceResult` calls return non-empty results whose frame
ids are exactly 0, 1, ..., N-1 in order — strictly increasing, no gaps, no
duplicates — and every result has been removed from the store exactly once,
leaving it empty. -/
theorem ordered_delivery (N : Nat) (out : List (String × Blob)) (perm : List Job)
    (hN : (N : Int) < 9223372036854775808) (hout : out ≠ [])
    (hperm : perm.Perm (submitSeq (initialState N) N).2) :
    (consumeSeq (fireCallbacks out (submitSeq (initialState N) N).1 perm) N).1 =
      (List.range N).map (fun k : Nat => mkRes out (k : Int)) ∧
    (consumeSeq (fireCallbacks out (submitSeq (initialState N) N).1 perm) N).1.map
        (fun r => r.frameId) =
      (List.range N).map (fun k : Nat => (k : Int)) ∧
    (∀ r ∈ (consumeSeq (fireCallbacks out (submitSeq (initialState N) N).1 perm) N).1,
      r.IsEmpty = false) ∧
    (consumeSeq (fireCallbacks out (submitSeq
        (initialState N) N).1 perm) N).2.completedInferenceResults = [] := by
  have hsub := submitSeq_spec N (initialState N) (by simp [initialState])
    (by simp [initialState]) (by simp [initialState]; omega)
  have hjobs : (submitSeq (initialState N) N).2 =
      (List.range N).map
        (fun k : Nat => { frameId := (k : Int), startTime := 0, metaData := none }) := by
    rw [hsub]
    dsimp only [initialState]
    apply List.map_congr_left
    intro k _
    simp
  have hjobmem : ∀ j ∈ perm, j.startTime = 0 ∧ j.metaData = none := by
    intro j hj
    have := hperm.mem_iff.mp hj
    rw [hjobs] at this
    simp only [List.mem_map] at this
    obtain ⟨k, _, hk⟩ := this
    rw [← hk]
    exact ⟨rfl, rfl⟩
  have hstoreSub : (submitSeq (initialState N) N).1.completedInferenceResults = [] := by
    rw [hsub]
    rfl
  have hfresh : ∀ j ∈ perm,
      mapFind (submitSeq (initialState N) N).1.completedInferenceResults j.frameId = none := by
    intro j _
    rw [hstoreSub]
    rfl
  have hmapperm : (perm.map Job.frameId).Perm
      ((submitSeq (initialState N) N).2.map Job.frameId) := hperm.map Job.frameId
  have hjobsmap : (submitSeq (initialState N) N).2.map Job.frameId =
      (List.range N).map (fun k : Nat => (k : Int)) := by
    rw [hjobs, List.map_map]
    rfl
  have hnodup : (perm.map Job.frameId).Nodup := by
    rw [hmapperm.nodup_iff, hjobsmap]
    exact List.Nodup.map (fun a b h => by omega) (List.nodup_range N)
  have hkmem : ∀ k : Int, k ∈ perm.map Job.frameId ↔ (0 ≤ k ∧ k < (N : Int)) := by
    intro k
    rw [hmapperm.mem_iff, hjobsmap]
    simp only [List.mem_map, List.mem_range]
    constructor
    · rintro ⟨m, hm, rfl⟩
      constructor
      · omega
      · omega
    · rintro ⟨h0, h1⟩
      refine ⟨k.toNat, by omega, by omega⟩
  obtain ⟨hFind, hMem⟩ := fireCallbacks_store out perm (submitSeq (initialState N) N).1
    hjobmem hfresh hnodup
  obtain ⟨hf1, hf2, hf3, hf4⟩ := fireCallbacks_fields out perm (submitSeq (initialState N) N).1
  have houtSub : (submitSeq (initialState N) N).1.outputFrameId = 0 := by
    rw [hsub]
    rfl
  obtain ⟨c1, c2, c3⟩ := consumeSeq_spec out hout N 0
    (fireCallbacks out (submitSeq (initialState N) N).1 perm)
    (by rw [hf2, houtSub]; rfl)
    (by push_cast; omega)
    (by
      constructor
      · intro p hp
        rcases hMem p hp with hmem | hmem
        · rw [hstoreSub] at hmem
          exact absurd hmem (List.not_mem_nil p)
        · have hb := (hkmem p.1).mp hmem.1
          push_cast
          exact ⟨hmem.2, by omega, by omega⟩
      · intro k hk0 hk1
        rw [hFind k]
        rw [if_pos ((hkmem k).mpr ⟨by simpa using hk0, by push_cast at hk1; omega⟩)])
  refine ⟨?_, ?_, ?_, c2⟩
  · rw [c1]
    apply List.map_congr_left
    intro t _
    simp
  · rw [c1, List.map_map]
    apply List.map_congr_left
    intro t _
    simp [mkRes]
  · intro r hr
    rw [c1] at hr
    simp only [List.mem_map] at hr
    obtain ⟨k, _, hk⟩ := hr
    rw [← hk]
    rcases out with _ | ⟨b, bs⟩
    · exact absurd rfl hout
    · rfl

/-- Witness for C1: three submissions completing in the order 2, 0, 1 are
still consumed as 0, 1, 2. -/
theorem ordered_delivery_witness :
    (consumeSeq (fireCallbacks [("output", 0)] (submitSeq (initialState 3) 3).1
        [⟨2, 0, none⟩, ⟨0, 0, none⟩, ⟨1, 0, none⟩]) 3).1 =
      [mkRes [("output", 0)] 0, mkRes [("output", 0)] 1, mkRes [("output", 0)] 2] ∧
    (consumeSeq (fireCallbacks [("output", 0)] (submitSeq (initialState 3) 3).1
        [⟨2, 0, none⟩, ⟨0, 0, none⟩, ⟨1, 0, none⟩]) 3).2.completedInferenceResults = [] := by
  have h := ordered_delivery 3 [("output", 0)] [⟨2, 0, none⟩, ⟨0, 0, none⟩, ⟨1, 0, none⟩]
    (by decide) (by simp) (by decide)
  refine ⟨?_, h.2.2.2⟩
  rw [h.1]
  rfl
